import Mathlib

/-!
Verification development for the path-finding core of `routing/pathfind.go`.

The Go source is shallowly embedded: `lnwire.MilliSatoshi` (a `uint64`) is
modelled as `Nat` with explicit wrap-around `% 2^64` at every arithmetic
operation the Go code performs on it, `uint32` time locks use `% 2^32`, and
the `int64` weight arithmetic uses wrap-around two's-complement semantics on
`Int` with Go's truncating division.  Vertices (33-byte public keys, compared
by byte equality) are modelled as `Nat` identifiers with decidable equality.

Entities of the repository that `pathfind.go` uses but whose sources are not
part of this package (the two heaps of `heap.go`, `edgeLocator`, and the
`channeldb` graph store) are modelled from the specification and are marked
`Modelled from the spec:` in their doc comments.

General recursion of the Go loops (the Dijkstra loop, the Yen loop, the path
reconstruction walk, and the mutual recursion between `findPath` and
`findKPaths`) is made structural with an explicit `fuel` parameter; running
out of fuel yields the dedicated error `Err.outOfFuel`, which no Go execution
produces.  All theorems either hold for every fuel value or evaluate concrete
runs with ample fuel.
-/

deriving instance DecidableEq for Except

namespace Pathfind

/-- `HopLimit` from pathfind.go: maximum number of hops permissible in a route. -/
def HopLimit : Nat := 20

/-- `infinity` from pathfind.go: `math.MaxInt64`, the starting distance. -/
def infinity : Int := 2 ^ 63 - 1

/-- `RiskFactorBillionths` from pathfind.go. -/
def RiskFactorBillionths : Int := 15

/-- `noFeeLimit` from pathfind.go: `lnwire.MilliSatoshi(math.MaxUint32)`. -/
def noFeeLimit : Nat := 2 ^ 32 - 1

/-- Modulus of Go's `uint64` (`lnwire.MilliSatoshi`). -/
def M64 : Nat := 2 ^ 64

/-- Modulus of Go's `uint32` (block heights and time locks). -/
def M32 : Nat := 2 ^ 32

/-- Go `uint64` addition: wraps modulo `2^64`. -/
def u64add (a b : Nat) : Nat := (a + b) % M64

/-- Go `uint64` subtraction: wraps modulo `2^64`. -/
def u64sub (a b : Nat) : Nat := (a + (M64 - b % M64)) % M64

/-- Go `uint64` multiplication: wraps modulo `2^64`. -/
def u64mul (a b : Nat) : Nat := (a * b) % M64

/-- Go `uint32` addition: wraps modulo `2^32`. -/
def u32add (a b : Nat) : Nat := (a + b) % M32

/-- Go `uint32` subtraction: wraps modulo `2^32`. -/
def u32sub (a b : Nat) : Nat := (a + (M32 - b % M32)) % M32

/-- Wrap an integer into `int64` two's-complement range `[-2^63, 2^63)`. -/
def toInt64 (x : Int) : Int := (x + 2 ^ 63) % 2 ^ 64 - 2 ^ 63

/-- Go's conversion `int64(x)` of an unsigned 64-bit value. -/
def i64ofU64 (n : Nat) : Int := toInt64 n

/-- Go `int64` addition: wraps in two's complement. -/
def i64add (a b : Int) : Int := toInt64 (a + b)

/-- Go `int64` multiplication: wraps in two's complement. -/
def i64mul (a b : Int) : Int := toInt64 (a * b)

/-- A node identifier (the 33-byte serialized public key `Vertex` of
pathfind.go, compared by byte equality), modelled as an abstract `Nat`. -/
abbrev Vertex := Nat

/-- `channeldb.ChannelEdgePolicy`, restricted to the fields pathfind.go reads.
`node` is the vertex of the node this directed edge leads to
(`edge.Node.PubKeyBytes`).  The Go `ChannelFlags` byte is split into its two
bits used here: `disabled` (`lnwire.ChanUpdateDisabled`) and `direction`
(`lnwire.ChanUpdateDirection`, consumed only by the edge locator). -/
structure ChannelEdgePolicy where
  channelID : Nat
  node : Vertex
  feeBaseMSat : Nat
  feeProportionalMillionths : Nat
  timeLockDelta : Nat
  minHTLC : Nat
  disabled : Bool
  direction : Bool
deriving DecidableEq, Repr

/-- `computeFee` from pathfind.go:
`edge.FeeBaseMSat + (amt*edge.FeeProportionalMillionths)/1000000`,
in `uint64` arithmetic (the product wraps modulo `2^64`, the division
truncates). -/
def computeFee (amt : Nat) (edge : ChannelEdgePolicy) : Nat :=
  u64add edge.feeBaseMSat (u64mul amt edge.feeProportionalMillionths / 1000000)

/-- The backward accumulation loop shared by `computePathFee`: walking the
edge list from its last element toward its first, it returns the
`nextIncomingAmount` after all iterations.  The last hop forwards exactly
`amt` with zero fee; an interior hop at index `i` forwards the incoming
amount of hop `i+1` and pays `computeFee` of that amount against
`pathEdges[i+1]`. -/
def computePathFeeLoop (amt : Nat) : List ChannelEdgePolicy → Nat
  | [] => 0
  | [_] => u64add amt 0
  | _ :: e' :: rest =>
    let nia := computePathFeeLoop amt (e' :: rest)
    u64add nia (computeFee nia e')

/-- `computePathFee` from pathfind.go: the final `nextIncomingAmount - amt`
(`uint64` subtraction). -/
def computePathFee (amt : Nat) (pathEdges : List ChannelEdgePolicy) : Nat :=
  u64sub (computePathFeeLoop amt pathEdges) amt

/-- `isSamePath` from pathfind.go: equal length and pairwise equal
`ChannelID`s. -/
def isSamePath : List ChannelEdgePolicy → List ChannelEdgePolicy → Bool
  | [], [] => true
  | [], _ :: _ => false
  | _ :: _, [] => false
  | a :: as, b :: bs => a.channelID = b.channelID && isSamePath as bs

/-- `Hop` from pathfind.go. -/
structure Hop where
  pubKeyBytes : Vertex
  channelID : Nat
  outgoingTimeLock : Nat
  amtToForward : Nat
deriving DecidableEq, Repr

/-- `Route` from pathfind.go.  The `nodeIndex` and `chanIndex` membership maps
are modelled as the lists of keys inserted into them. -/
structure Route where
  totalTimeLock : Nat
  totalFees : Nat
  totalAmount : Nat
  sourcePubKey : Vertex
  hops : List Hop
  nodeIndex : List Vertex
  chanIndex : List Nat
deriving DecidableEq, Repr

/-- The error kinds pathfind.go raises (`errors.go` constants), plus the two
model artifacts `outOfFuel` (fuel exhaustion of the embedded recursion) and
`stuck` (a nil-pointer dereference the Go code would crash on).
`maxHopsExceeded` carries the over-long reconstructed path that Go returns
alongside the error (empty when Go returns `nil`). -/
inductive Err where
  | noPathFound
  | maxHopsExceeded (oversize : List ChannelEdgePolicy)
  | noRouteFound
  | feeLimitExceeded
  | noRouteHopsProvided
  | pegNotInNetwork
  | graphErr
  | outOfFuel
  | stuck
deriving DecidableEq, Repr

/-- `NewRouteFromHops` from pathfind.go: fails on an empty hop list with
`ErrNoRouteHopsProvided`; otherwise builds the `Route` record, with
`TotalFees = amtToSend - hops[last].AmtToForward` (`uint64` subtraction) and
the node/channel indices populated from the hops. -/
def NewRouteFromHops (amtToSend : Nat) (timeLock : Nat) (sourceVertex : Vertex)
    (hops : List Hop) : Except Err Route :=
  match hops with
  | [] => .error .noRouteHopsProvided
  | h :: t =>
    .ok
      { sourcePubKey := sourceVertex
        hops := h :: t
        totalTimeLock := timeLock
        totalAmount := amtToSend
        totalFees := u64sub amtToSend ((h :: t).getLastD h).amtToForward
        nodeIndex := (h :: t).map Hop.pubKeyBytes
        chanIndex := (h :: t).map Hop.channelID }

/-- The backward loop of `newRoute` from pathfind.go, processing `pathEdges`
from its last index down to 0.  Returns `(hops, totalTimeLock,
nextIncomingAmount)` exactly as the Go loop leaves them: the hop list is
built by prepending, `totalTimeLock` starts at `currentHeight` and
accumulates in `uint32`, and amounts accumulate in `uint64`.  The last edge
emits `amtToForward = amtToSend` and `outgoingTimeLock = currentHeight +
finalCLTVDelta`; an interior edge at index `i` emits the sub-loop's
`nextIncomingAmount` and `outgoingTimeLock = totalTimeLock - delta` after
`totalTimeLock += delta` with `delta = pathEdges[i+1].TimeLockDelta`. -/
def newRouteLoop (amtToSend : Nat) (currentHeight : Nat) (finalCLTVDelta : Nat) :
    List ChannelEdgePolicy → List Hop × Nat × Nat
  | [] => ([], currentHeight, 0)
  | [e] =>
    ([{ pubKeyBytes := e.node, channelID := e.channelID,
        amtToForward := amtToSend,
        outgoingTimeLock := u32add currentHeight finalCLTVDelta }],
      u32add currentHeight finalCLTVDelta,
      u64add amtToSend 0)
  | e :: e' :: rest =>
    let s := newRouteLoop amtToSend currentHeight finalCLTVDelta (e' :: rest)
    let amtToForward := s.2.2
    let fee := computeFee amtToForward e'
    let delta := e'.timeLockDelta
    let ttl := u32add s.2.1 delta
    ({ pubKeyBytes := e.node, channelID := e.channelID,
       amtToForward := amtToForward,
       outgoingTimeLock := u32sub ttl delta } :: s.1,
      ttl,
      u64add amtToForward fee)

/-- `newRoute` from pathfind.go: runs the backward loop, builds the route via
`NewRouteFromHops nextIncomingAmount totalTimeLock sourceVertex hops`, and
invalidates it with `ErrFeeLimitExceeded` when `TotalFees > feeLimit`. -/
def newRoute (amtToSend feeLimit : Nat) (sourceVertex : Vertex)
    (pathEdges : List ChannelEdgePolicy) (currentHeight : Nat)
    (finalCLTVDelta : Nat) : Except Err Route :=
  let s := newRouteLoop amtToSend currentHeight finalCLTVDelta pathEdges
  match NewRouteFromHops s.2.2 s.2.1 sourceVertex s.1 with
  | .error e => .error e
  | .ok route =>
    if route.totalFees > feeLimit then .error .feeLimitExceeded
    else .ok route

/-- `edgeWeight` from pathfind.go:
`int64(fee) + int64(lockedAmt)*int64(timeLockDelta)*RiskFactorBillionths/1000000000`,
with `int64` wrap-around multiplication and Go's truncating division. -/
def edgeWeight (lockedAmt fee : Nat) (timeLockDelta : Nat) : Int :=
  let timeLockPenalty :=
    Int.tdiv (i64mul (i64mul (i64ofU64 lockedAmt) (i64ofU64 timeLockDelta))
      RiskFactorBillionths) 1000000000
  i64add (i64ofU64 fee) timeLockPenalty

/-- Modelled from the spec: `edgeLocator` (declared in the package's heap
file, not part of this source): the canonical directed-edge identifier
`(channel_id, direction_bit)`, a bijection between directed edges and
locators. -/
structure edgeLocator where
  channelID : Nat
  direction : Bool
deriving DecidableEq, Repr

/-- Modelled from the spec: `newEdgeLocator` maps a policy to its locator
using the policy's channel id and direction bit. -/
def newEdgeLocator (edge : ChannelEdgePolicy) : edgeLocator :=
  ⟨edge.channelID, edge.direction⟩

/-- Modelled from the spec: one directed channel of the `channeldb` graph
store.  `policyAB` is the directed policy from `nodeA` to `nodeB` (its
`node` field is `nodeB`) and `policyBA` the reverse one; either may be
absent.  `capacitySat` is the channel capacity in satoshis
(`ChannelEdgeInfo.Capacity`). -/
structure Channel where
  channelID : Nat
  nodeA : Vertex
  nodeB : Vertex
  capacitySat : Nat
  policyAB : Option ChannelEdgePolicy
  policyBA : Option ChannelEdgePolicy
deriving DecidableEq, Repr

/-- Modelled from the spec: the `channeldb.ChannelGraph` view, as the node
list visited by `ForEachNode` and the channel list backing
`ForEachChannel` / `FetchChannelEdgesByID`, in a fixed iteration order. -/
structure Graph where
  nodes : List Vertex
  channels : List Channel
deriving DecidableEq, Repr

/-- `graphParams` from pathfind.go (the `tx` transaction handle carries no
semantics here and is dropped).  `additionalEdges` maps a source vertex to
its outgoing additional policies; `bandwidthHints` maps channel ids to
bandwidths in millisatoshi. -/
structure graphParams where
  graph : Graph
  additionalEdges : List (Vertex × List ChannelEdgePolicy)
  bandwidthHints : List (Nat × Nat)
  originVertex : Option Vertex
deriving Repr

/-- `restrictParams` from pathfind.go. -/
structure restrictParams where
  ignoredNodes : List Vertex
  ignoredEdges : List edgeLocator
  feeLimit : Nat
  outgoingChannelID : Option Nat
  stopAtMaxHopsExceeded : Bool
deriving Repr

/-- `nodeWithDist` from the package's heap file, restricted to the fields
pathfind.go reads; the `node` handle is replaced by the vertex where the
record is stored or carried. -/
structure NodeWithDist where
  dist : Int
  amountToReceive : Nat
  fee : Nat
deriving DecidableEq, Repr

/-- An entry of the Dijkstra distance heap: the `nodeWithDist` snapshot that
was pushed, together with the vertex of its node handle. -/
structure DistEntry where
  dist : Int
  vertex : Vertex
  amountToReceive : Nat
  fee : Nat
deriving DecidableEq, Repr

/-- Modelled from the spec: popping the Dijkstra min-heap keyed by `dist`
ascending, ties broken by insertion order (stable): the earliest-inserted
entry of minimal distance is removed. -/
def popMinD : List DistEntry → Option (DistEntry × List DistEntry)
  | [] => none
  | e :: rest =>
    match popMinD rest with
    | none => some (e, [])
    | some (m, rest') =>
      if e.dist ≤ m.dist then some (e, rest) else some (m, e :: rest')

/-- The `path` struct of the package's heap file: candidate hops plus the
heap key `dist` (the hop count). -/
structure PathCand where
  hops : List ChannelEdgePolicy
  dist : Nat
deriving DecidableEq, Repr

/-- Modelled from the spec: popping the candidate-path min-heap keyed by hop
count, ties broken by insertion order (stable). -/
def popMinPath : List PathCand → Option (PathCand × List PathCand)
  | [] => none
  | e :: rest =>
    match popMinPath rest with
    | none => some (e, [])
    | some (m, rest') =>
      if e.dist ≤ m.dist then some (e, rest) else some (m, e :: rest')

/-- First-match lookup in an association list (models a Go map whose most
recent insertion wins, with updates modelled by prepending). -/
def alookup {α : Type} (l : List (Nat × α)) (k : Nat) : Option α :=
  (l.find? (fun p => p.1 = k)).map (fun p => p.2)

/-- The `next` hop map of `findPath`, as an association list from vertex to
the chosen edge; updates prepend, lookups take the first match. -/
def nextLookup (next : List (Vertex × ChannelEdgePolicy)) (v : Vertex) :
    Option ChannelEdgePolicy :=
  (next.find? (fun p => p.1 = v)).map (fun p => p.2)

/-- The reason a call of the `processEdge` closure of `findPath` returns
early, in the textual order of its checks. -/
inductive RejectReason where
  | disabledChan
  | outgoingChanMismatch
  | ignoredNode
  | ignoredEdge
  | insufficientBandwidth
  | belowMinHTLC
  | feeLimitHit
  | notImproved
  | zeroTimeLockDelta
deriving DecidableEq, Repr

/-- The decision logic of the `processEdge` closure of `findPath` up to and
including the tentative-distance comparison, with its checks in source
order (the Go local `isSourceChan = (fromVertex == originVertex)` is
inlined into its two uses).  On success it returns the new `nodeWithDist`
record for `fromVertex`, which then still faces the final
zero-time-lock-delta check of `processEdgeCheck` below. -/
def processEdgeGate (origin : Vertex) (outgoingChannelID : Option Nat)
    (ignoredNodes : List Vertex) (ignoredEdges : List edgeLocator)
    (feeLimit amt : Nat) (dist : Vertex → NodeWithDist)
    (fromVertex : Vertex) (edge : ChannelEdgePolicy) (bandwidth : Nat)
    (toNode : Vertex) : Except RejectReason NodeWithDist :=
  if ¬ fromVertex = origin ∧ edge.disabled = true then .error .disabledChan
  else if fromVertex = origin ∧
      outgoingChannelID.any (fun c => c != edge.channelID) = true then
    .error .outgoingChanMismatch
  else if fromVertex ∈ ignoredNodes then .error .ignoredNode
  else if newEdgeLocator edge ∈ ignoredEdges then .error .ignoredEdge
  else
    let toNodeDist := dist toNode
    let amountToSend := toNodeDist.amountToReceive
    if bandwidth < amountToSend then .error .insufficientBandwidth
    else if amountToSend < edge.minHTLC then .error .belowMinHTLC
    else
      let fee := if fromVertex ≠ origin then computeFee amountToSend edge else 0
      let timeLockDelta := if fromVertex ≠ origin then edge.timeLockDelta else 0
      let amountToReceive := u64add amountToSend fee
      let totalFee := u64sub amountToReceive amt
      if totalFee > feeLimit then .error .feeLimitHit
      else
        let weight := edgeWeight amountToReceive fee timeLockDelta
        let tempDist := i64add toNodeDist.dist weight
        if (dist fromVertex).dist ≤ tempDist then .error .notImproved
        else .ok ⟨tempDist, amountToReceive, fee⟩

/-- The full decision logic of the `processEdge` closure of `findPath`: the
gate above followed by the last check of the source, the unconditional
rejection of edges whose own `TimeLockDelta` is zero.  On success the
caller records the returned record in the distance map, sets
`next[fromVertex] = edge` and pushes the record onto the heap. -/
def processEdgeCheck (origin : Vertex) (outgoingChannelID : Option Nat)
    (ignoredNodes : List Vertex) (ignoredEdges : List edgeLocator)
    (feeLimit amt : Nat) (dist : Vertex → NodeWithDist)
    (fromVertex : Vertex) (edge : ChannelEdgePolicy) (bandwidth : Nat)
    (toNode : Vertex) : Except RejectReason NodeWithDist :=
  match processEdgeGate origin outgoingChannelID ignoredNodes ignoredEdges
      feeLimit amt dist fromVertex edge bandwidth toNode with
  | .error r => .error r
  | .ok nd =>
    if edge.timeLockDelta = 0 then .error .zeroTimeLockDelta
    else .ok nd

/-- The mutable search state of `findPath`: the distance map, the `next` hop
map and the node heap. -/
structure FPState where
  dist : Vertex → NodeWithDist
  next : List (Vertex × ChannelEdgePolicy)
  heapD : List DistEntry

/-- The initial distance map of `findPath`: every graph node and every
additional-edge source vertex starts at `infinity`; the target is then
overwritten with distance 0 (the Go composite literal leaves `dist` at its
zero value) and `amountToReceive = amt`; any other vertex reads as the Go
zero-value `nodeWithDist` (distance 0). -/
def initDist (g : graphParams) (amt : Nat) (target : Vertex) :
    Vertex → NodeWithDist := fun v =>
  if v = target then ⟨0, amt, 0⟩
  else if v ∈ g.graph.nodes ∨ g.additionalEdges.any (fun p => p.1 = v) then
    ⟨infinity, 0, 0⟩
  else ⟨0, 0, 0⟩

/-- The `additionalEdgesWithSrc` reverse lookup built at the start of
`findPath`: the additional edges whose destination is `toV`, each paired
with its source vertex, in iteration order. -/
def additionalEdgesWithSrc (g : graphParams) (toV : Vertex) :
    List (Vertex × ChannelEdgePolicy) :=
  g.additionalEdges.foldl
    (fun acc p => acc ++ (p.2.filter (fun e => e.node = toV)).map
      (fun e => (p.1, e))) []

/-- Modelled from the spec: `bestNode.ForEachChannel` at a pivot vertex:
each adjacent channel yields the incoming policy (the one whose destination
is the pivot, absent when unknown) and the node at the channel's other end
(`edgeInfo.FetchOtherNode`). -/
def adjacentChannels (gr : Graph) (pivot : Vertex) :
    List (Channel × Option ChannelEdgePolicy × Vertex) :=
  (gr.channels.filter (fun c => c.nodeA = pivot ∨ c.nodeB = pivot)).map
    (fun c =>
      if c.nodeA = pivot then (c, c.policyBA, c.nodeB)
      else (c, c.policyAB, c.nodeA))

/-- One relaxation: run `processEdgeCheck`; on success record the new
distance record, set the `next` pointer and push the heap entry. -/
def relaxStep (origin : Vertex) (r : restrictParams) (amt : Nat)
    (st : FPState) (fromVertex : Vertex) (edge : ChannelEdgePolicy)
    (bandwidth : Nat) (toNode : Vertex) : FPState :=
  match processEdgeCheck origin r.outgoingChannelID r.ignoredNodes
      r.ignoredEdges r.feeLimit amt st.dist fromVertex edge bandwidth toNode with
  | .error _ => st
  | .ok nd =>
    { dist := fun v => if v = fromVertex then nd else st.dist v
      next := (fromVertex, edge) :: st.next
      heapD := st.heapD ++ [⟨nd.dist, fromVertex, nd.amountToReceive, nd.fee⟩] }

/-- The main Dijkstra loop of `findPath`: pop the smallest-distance entry,
stop when the heap empties or the source is popped, otherwise relax every
incoming graph edge of the pivot (bandwidth from the hint map, else the
channel capacity converted to millisatoshi) and then every incoming
additional edge (bandwidth = the popped entry's `amountToReceive`). -/
def dijkstraLoop (g : graphParams) (r : restrictParams) (origin : Vertex)
    (sourceV : Vertex) (amt : Nat) : Nat → FPState → FPState
  | 0, st => st
  | fuel + 1, st =>
    match popMinD st.heapD with
    | none => st
    | some (entry, restHeap) =>
      if entry.vertex = sourceV then { st with heapD := restHeap }
      else
        let st1 : FPState := { st with heapD := restHeap }
        let st2 := (adjacentChannels g.graph entry.vertex).foldl
          (fun acc ce =>
            match ce.2.1 with
            | none => acc
            | some inEdge =>
              let bw := (alookup g.bandwidthHints ce.1.channelID).getD
                (u64mul ce.1.capacitySat 1000)
              relaxStep origin r amt acc ce.2.2 inEdge bw entry.vertex) st1
        let st3 := (additionalEdgesWithSrc g entry.vertex).foldl
          (fun acc ve =>
            relaxStep origin r amt acc ve.1 ve.2 entry.amountToReceive
              entry.vertex) st2
        dijkstraLoop g r origin sourceV amt fuel st3

/-- The forward path reconstruction of `findPath`: starting at the source,
follow the `next` map until the target is reached, appending each edge.
A missing `next` entry models the nil dereference Go would crash on;
exhausting the step budget models the non-termination of a cyclic `next`
map (the Go code assumes no cycles). -/
def reconstructPath (next : List (Vertex × ChannelEdgePolicy))
    (target : Vertex) : Nat → Vertex → List ChannelEdgePolicy →
    Except Err (List ChannelEdgePolicy)
  | 0, _, _ => .error .stuck
  | steps + 1, current, acc =>
    if current = target then .ok acc
    else
      match nextLookup next current with
      | none => .error .stuck
      | some nextEdge =>
        reconstructPath next target steps nextEdge.node (acc ++ [nextEdge])

/-- The zero value of `ChannelEdgePolicy` (the Go composite literal with all
fields omitted). -/
def zeroPolicy : ChannelEdgePolicy := ⟨0, 0, 0, 0, 0, 0, false, false⟩

/-- The body of `findPath` from pathfind.go without its over-long retry:
initialize the distance map, run the backward Dijkstra loop from the
target, fail with `ErrNoPathFound` when the source never acquired a `next`
pointer, reconstruct the forward path, and return an over-long path inside
`ErrMaxHopsExceeded`.  This is exactly `findPath` when
`stopAtMaxHopsExceeded` is set — the flag's only effect in the source is
to suppress the retry, which `findPath` below adds on top. -/
def findPathBase (fuel : Nat) (g : graphParams) (r : restrictParams)
    (sourceV targetV : Vertex) (amt : Nat) :
    Except Err (List ChannelEdgePolicy) :=
  let origin := g.originVertex.getD sourceV
  let d0 := initDist g amt targetV
  let st0 : FPState :=
    ⟨d0, [], [⟨(d0 targetV).dist, targetV, (d0 targetV).amountToReceive,
      (d0 targetV).fee⟩]⟩
  let stF := dijkstraLoop g r origin sourceV amt fuel st0
  match nextLookup stF.next sourceV with
  | none => .error .noPathFound
  | some _ =>
    match reconstructPath stF.next targetV (stF.next.length + 1)
        sourceV [] with
    | .error e => .error e
    | .ok pathEdges =>
      if pathEdges.length > HopLimit then .error (.maxHopsExceeded pathEdges)
      else .ok pathEdges

/-- The inner deviation loop of `findKPaths` over spur indices `i` of the
previous shortest path: build the ignore sets (the globally ignored edges
plus, for every confirmed path sharing the length-`i+1` root prefix, its
edge after the spur node; the root-path vertices other than the spur node),
search a spur path with `stopAtMaxHopsExceeded = true` (hence through
`findPathBase`, with which `findPath` coincides under that flag), skip the
index on `ErrNoPathFound`, accept the oversize partial result of
`ErrMaxHopsExceeded`, and either abort the loop (when the combined path is
over-long and a valid path exists) or push the combined candidate. -/
def kSpurLoop (fuel : Nat) (g : graphParams) (r : restrictParams)
    (targetV : Vertex) (amt : Nat) (prev : List ChannelEdgePolicy)
    (shortest : List (List ChannelEdgePolicy)) (validNum : Nat) :
    List PathCand → List Nat → Except Err (List PathCand)
  | cand, [] => .ok cand
  | cand, i :: irest =>
    let spurNode := (prev.getD i zeroPolicy).node
    let rootPath := prev.take (i + 1)
    let ignoredEdges := r.ignoredEdges ++
      (shortest.filter (fun p =>
        decide (i + 1 < p.length) && isSamePath rootPath (p.take (i + 1)))).map
        (fun p => newEdgeLocator (p.getD (i + 1) zeroPolicy))
    let ignoredNodes :=
      (rootPath.filter (fun h => h.node ≠ spurNode)).map (fun h => h.node)
    match findPathBase fuel g
        ⟨ignoredNodes, ignoredEdges, r.feeLimit, none, true⟩
        spurNode targetV amt with
    | .error .noPathFound =>
      kSpurLoop fuel g r targetV amt prev shortest validNum cand irest
    | .error (.maxHopsExceeded sp) =>
      let newPathLen := rootPath.length + sp.length
      if newPathLen > HopLimit + 1 ∧ 0 < validNum then .ok cand
      else
        kSpurLoop fuel g r targetV amt prev shortest validNum
          (cand ++ [⟨rootPath ++ sp, newPathLen⟩]) irest
    | .error e => .error e
    | .ok spurPath =>
      let newPathLen := rootPath.length + spurPath.length
      if newPathLen > HopLimit + 1 ∧ 0 < validNum then .ok cand
      else
        kSpurLoop fuel g r targetV amt prev shortest validNum
          (cand ++ [⟨rootPath ++ spurPath, newPathLen⟩]) irest

/-- The outer Yen loop of `findKPaths` (`for k := 1; validPathsNum <
numPaths; k++`): examine spur deviations of the previously confirmed path,
then pop the smallest candidate (break when the heap is empty), append it
to the confirmed paths, and count it as valid when its length is at most
`HopLimit + 1`.  `.ok shortest` at fuel 0 is the model's fuel bailout. -/
def kShortestLoop (g : graphParams) (r : restrictParams) (targetV : Vertex)
    (amt : Nat) (numPaths : Nat) :
    Nat → List (List ChannelEdgePolicy) → List PathCand → Nat →
    Except Err (List (List ChannelEdgePolicy))
  | fuel, shortest, cand, validNum =>
    if validNum < numPaths then
      match fuel with
      | 0 => .ok shortest
      | fuel' + 1 =>
        let prev := shortest.getLastD []
        match kSpurLoop fuel' g r targetV amt prev shortest validNum cand
            (List.range (prev.length - 1)) with
        | .error e => .error e
        | .ok cand' =>
          match popMinPath cand' with
          | none => .ok shortest
          | some (best, cand'') =>
            let validNum' :=
              if best.hops.length ≤ HopLimit + 1 then validNum + 1
              else validNum
            kShortestLoop g r targetV amt numPaths fuel'
              (shortest ++ [best.hops]) cand'' validNum'
    else .ok shortest

/-- `findKPaths` from pathfind.go: prepend the artificial self-edge
(`&channeldb.ChannelEdgePolicy{Node: source}`) to the starting path, count
it as valid when its length is at most `HopLimit + 1`, run the Yen loop,
filter out too-long paths, and drop the artificial first edge when
`originVertex` is set and differs from the source. -/
def findKPaths (fuel : Nat) (g : graphParams) (r : restrictParams)
    (sourceV targetV : Vertex) (amt : Nat)
    (startingPath : List ChannelEdgePolicy) (numPaths : Nat) :
    Except Err (List (List ChannelEdgePolicy)) :=
  let firstPath := { zeroPolicy with node := sourceV } :: startingPath
  let validNum : Nat := if firstPath.length ≤ HopLimit + 1 then 1 else 0
  match kShortestLoop g r targetV amt numPaths fuel [firstPath] []
      validNum with
  | .error e => .error e
  | .ok shortest =>
    let fShortest := shortest.filter (fun p => p.length ≤ HopLimit + 1)
    match g.originVertex with
    | some o =>
      if sourceV ≠ o then .ok (fShortest.map (fun p => p.drop 1))
      else .ok fShortest
    | none => .ok fShortest

/-- `findPath` from pathfind.go: the base search above, plus the handling
of an over-long reconstruction when `stopAtMaxHopsExceeded` is unset: one
retry through `findKPaths` with `numPaths = 1`, whose first result is used
without its leading artificial edge, and `ErrMaxHopsExceeded` when the
retry fails or returns nothing. -/
def findPath (fuel : Nat) (g : graphParams) (r : restrictParams)
    (sourceV targetV : Vertex) (amt : Nat) :
    Except Err (List ChannelEdgePolicy) :=
  match findPathBase fuel g r sourceV targetV amt with
  | .error (.maxHopsExceeded pathEdges) =>
    if r.stopAtMaxHopsExceeded then .error (.maxHopsExceeded pathEdges)
    else
      match findKPaths fuel g r sourceV targetV amt pathEdges 1 with
      | .error _ => .error (.maxHopsExceeded [])
      | .ok [] => .error (.maxHopsExceeded [])
      | .ok (p :: _) => .ok (p.drop 1)
  | other => other
/-- `HopPeg` from pathfind.go: a pegged node with an optional channel id
(`0` meaning no specific channel). -/
structure HopPeg where
  nodeID : Vertex
  channelID : Nat
deriving DecidableEq, Repr

/-- Modelled from the spec: `graph.FetchChannelEdgesByID`: look the channel
up by id, failing like the graph store does when it is unknown. -/
def fetchChannelByID (gr : Graph) (id : Nat) : Except Err Channel :=
  match gr.channels.find? (fun c => c.channelID = id) with
  | some c => .ok c
  | none => .error .graphErr

/-- Modelled from the spec: `edgeInfo.OtherNodeKeyBytes`: the endpoint of
the channel opposite the given vertex, failing when the vertex is neither
endpoint. -/
def otherNodeKey (c : Channel) (v : Vertex) : Except Err Vertex :=
  if v = c.nodeA then .ok c.nodeB
  else if v = c.nodeB then .ok c.nodeA
  else .error .graphErr

/-- The expansion pass of `prepareHopPegs`, indexed from `i`: a peg with a
pegged channel id is an error at position 0, and otherwise gets the
channel's other endpoint prepended as an additional channel-free peg. -/
def expandPegs (gr : Graph) : Nat → List HopPeg → Except Err (List HopPeg)
  | _, [] => .ok []
  | i, peg :: rest =>
    match
      (if peg.channelID ≠ 0 then
        if i = 0 then .error .pegNotInNetwork
        else
          match fetchChannelByID gr peg.channelID with
          | .error e => .error e
          | .ok c =>
            match otherNodeKey c peg.nodeID with
            | .error e => .error e
            | .ok prevV => .ok [⟨prevV, 0⟩, peg]
      else .ok [peg] : Except Err (List HopPeg)) with
    | .error e => .error e
    | .ok hs =>
      match expandPegs gr (i + 1) rest with
      | .error e => .error e
      | .ok tl => .ok (hs ++ tl)

/-- The deduplication pass of `prepareHopPegs`: walking the expanded list
with its predecessor, drop a channel-free peg equal (as a vertex) to the
immediately prior entry of the expanded list. -/
def dedupPegs (prevPeg : HopPeg) : List HopPeg → List HopPeg
  | [] => []
  | p :: rest =>
    if p.channelID = 0 ∧ p.nodeID = prevPeg.nodeID then dedupPegs p rest
    else p :: dedupPegs p rest

/-- `prepareHopPegs` from pathfind.go: expand channel-pegged hops, return
the expanded list unchanged when it has fewer than two entries, and
deduplicate otherwise (the first entry is always kept). -/
def prepareHopPegs (gr : Graph) (inPegs : List HopPeg) :
    Except Err (List HopPeg) :=
  match expandPegs gr 0 inPegs with
  | .error e => .error e
  | .ok expanded =>
    if expanded.length < 2 then .ok expanded
    else
      match expanded with
      | [] => .ok []
      | p0 :: rest => .ok (p0 :: dedupPegs p0 rest)

/-- The per-segment parameters `findPaths` records (`segmentParams`). -/
structure SegInfo where
  srcV : Vertex
  destV : Vertex
  pegged : Bool
deriving DecidableEq, Repr

/-- The segmentation loop of `findPaths` over adjacent peg pairs: fetch the
previous peg's node (failing like `FetchLightningNode` when it is not in
the graph), search the segment with the shared origin vertex and the
accumulated ignored edges — or take the single pegged policy whose
destination is the peg — then add the segment's locators to the ignored
edges.  Returns the accumulated `(ignoredEdges, segPaths, segParams)`. -/
def segmentLoop (fuel : Nat) (gr : Graph)
    (bandwidthHints : List (Nat × Nat)) (origin : Vertex)
    (feeLimit amt : Nat) :
    HopPeg → List HopPeg →
    List edgeLocator × List (List ChannelEdgePolicy) × List SegInfo →
    Except Err (List edgeLocator × List (List ChannelEdgePolicy) × List SegInfo)
  | _, [], st => .ok st
  | prevPeg, peg :: rest, (ignored, segPaths, infos) =>
    if prevPeg.nodeID ∈ gr.nodes then
      match
        (if peg.channelID = 0 then
          findPath fuel ⟨gr, [], bandwidthHints, some origin⟩
            ⟨[], ignored, feeLimit, none, false⟩ prevPeg.nodeID peg.nodeID amt
        else
          match fetchChannelByID gr peg.channelID with
          | .error e => .error e
          | .ok c =>
            match (if peg.nodeID = c.nodeB then c.policyAB else c.policyBA) with
            | some pol => .ok [pol]
            | none => .error .stuck : Except Err (List ChannelEdgePolicy)) with
      | .error e => .error e
      | .ok segPath =>
        segmentLoop fuel gr bandwidthHints origin feeLimit amt peg rest
          (ignored ++ segPath.map newEdgeLocator,
            segPaths ++ [segPath],
            infos ++ [⟨prevPeg.nodeID, peg.nodeID, peg.channelID ≠ 0⟩])
    else .error .graphErr

/-- The `stitchPath` closure of `findPaths`: concatenate the segment paths,
substituting `path` for segment `i`. -/
def stitchPath (segPaths : List (List ChannelEdgePolicy)) (i : Nat)
    (path : List ChannelEdgePolicy) : List ChannelEdgePolicy :=
  ((List.range segPaths.length).map
    (fun j => if i = j then path else segPaths.getD j [])).flatten

/-- The inner loop of `findPaths` over the alternatives found for segment
`i`: skip the first alternative of every segment but the first (it is the
already-selected shortest path); for the first segment's first alternative
replace the stored segment path by its artificial-edge-prefixed replica;
stitch, drop stitched candidates longer than `HopLimit`, and push the rest
onto the candidate heap. -/
def stitchFold (i : Nat) :
    List (Nat × List ChannelEdgePolicy) →
    List (List ChannelEdgePolicy) × List PathCand →
    List (List ChannelEdgePolicy) × List PathCand
  | [], st => st
  | (j, segKPath) :: rest, (segPaths, cand) =>
    if i ≠ 0 ∧ j = 0 then stitchFold i rest (segPaths, cand)
    else
      let segPaths' :=
        if i = 0 ∧ j = 0 then segPaths.set 0 segKPath else segPaths
      let stitched := stitchPath segPaths' i segKPath
      if stitched.length > HopLimit then stitchFold i rest (segPaths', cand)
      else
        stitchFold i rest
          (segPaths', cand ++ [⟨stitched, stitched.length⟩])

/-- The diversification loop of `findPaths` over segment indices: skip
pegged segments; compute the segment-local fee budget
(`feeLimit - startingPathFee + segFee` unless the limit is `noFeeLimit`);
drop the segment's own locators from the ignored-edge set; obtain up to
`numPaths` alternatives via `findKPaths`; and stitch them into end-to-end
candidates. -/
def candLoop (fuel : Nat) (gr : Graph) (bandwidthHints : List (Nat × Nat))
    (origin : Vertex) (feeLimit amt : Nat) (numPaths : Nat)
    (ignored : List edgeLocator) (startingPathFee : Nat)
    (infos : List SegInfo) :
    List Nat → List (List ChannelEdgePolicy) × List PathCand →
    Except Err (List (List ChannelEdgePolicy) × List PathCand)
  | [], st => .ok st
  | i :: rest, (segPaths, cand) =>
    if (infos.getD i ⟨0, 0, true⟩).pegged then
      candLoop fuel gr bandwidthHints origin feeLimit amt numPaths ignored
        startingPathFee infos rest (segPaths, cand)
    else
      let sFeeLimit :=
        if feeLimit ≠ noFeeLimit then
          u64add (u64sub feeLimit startingPathFee)
            (computePathFee amt (segPaths.getD i []))
        else noFeeLimit
      let sIgnored := ignored.filter
        (fun l => l ∉ (segPaths.getD i []).map newEdgeLocator)
      match findKPaths fuel ⟨gr, [], bandwidthHints, some origin⟩
          ⟨[], sIgnored, sFeeLimit, none, false⟩
          (infos.getD i ⟨0, 0, true⟩).srcV (infos.getD i ⟨0, 0, true⟩).destV
          amt (segPaths.getD i []) numPaths with
      | .error e => .error e
      | .ok segKPaths =>
        let st' := stitchFold i segKPaths.enum (segPaths, cand)
        candLoop fuel gr bandwidthHints origin feeLimit amt numPaths ignored
          startingPathFee infos rest st'

/-- The selection loop of `findPaths`: pop up to `numPaths` candidates from
the heap, in pop order. -/
def selectLoop : Nat → List PathCand → List (List ChannelEdgePolicy)
  | 0, _ => []
  | k + 1, cand =>
    match popMinPath cand with
    | none => []
    | some (best, rest) => best.hops :: selectLoop k rest

/-- `findPaths` from pathfind.go: expand the pegs (source and target
included), search each peg-bounded segment, reject the stitched base path
when its fee exceeds the limit (`ErrNoRouteFound`), diversify each
non-pegged segment through `findKPaths`, and pop up to `numPaths`
end-to-end candidates by total length. -/
def findPaths (fuel : Nat) (gr : Graph)
    (bandwidthHints : List (Nat × Nat)) (sourceV targetV : Vertex)
    (amt feeLimit : Nat) (numPaths : Nat) (additionalPegs : List HopPeg) :
    Except Err (List (List ChannelEdgePolicy)) :=
  let pegs0 : List HopPeg :=
    ⟨sourceV, 0⟩ :: (additionalPegs ++ [⟨targetV, 0⟩])
  match prepareHopPegs gr pegs0 with
  | .error e => .error e
  | .ok pegs =>
    match pegs with
    | [] => .ok []
    | firstPeg :: restPegs =>
      match segmentLoop fuel gr bandwidthHints sourceV feeLimit amt firstPeg
          restPegs ([], [], []) with
      | .error e => .error e
      | .ok (ignored, segPaths, infos) =>
        let startingPathFee := computePathFee amt segPaths.flatten
        if startingPathFee > feeLimit then .error .noRouteFound
        else
          match candLoop fuel gr bandwidthHints sourceV feeLimit amt numPaths
              ignored startingPathFee infos (List.range segPaths.length)
              (segPaths, []) with
          | .error e => .error e
          | .ok (_, cand) => .ok (selectLoop numPaths cand)

/-! Concrete instances used by counterexamples and witnesses. -/

/-- A policy with a 1000 msat base fee and 1000 ppm rate (spec scenario 2). -/
def wPol : ChannelEdgePolicy := ⟨9, 9, 1000, 1000, 40, 1, false, false⟩

/-- A policy whose proportional rate makes `amt * rate` overflow `uint64`
at `amt = 2^40`. -/
def cexPol : ChannelEdgePolicy := ⟨0, 0, 0, 2 ^ 24, 0, 0, false, false⟩

/-- First edge of the two-hop `newRoute` counterexample run. -/
def ce10 : ChannelEdgePolicy := ⟨1, 1, 0, 0, 3, 0, false, false⟩

/-- Second edge of the two-hop `newRoute` counterexample run; its time lock
delta 5 is what the claimed interior invariant would predict. -/
def ce11 : ChannelEdgePolicy := ⟨2, 2, 0, 0, 5, 0, false, false⟩

/-- Edges of a three-hop `newRoute` witness run. -/
def we0 : ChannelEdgePolicy := ⟨1, 1, 0, 0, 3, 0, false, false⟩

/-- Second edge of the three-hop witness run. -/
def we1 : ChannelEdgePolicy := ⟨2, 2, 0, 0, 5, 0, false, false⟩

/-- Third edge of the three-hop witness run. -/
def we2 : ChannelEdgePolicy := ⟨3, 3, 0, 0, 7, 0, false, false⟩

/-- Two-hop witness run with a real fee on the second hop. -/
def wf0 : ChannelEdgePolicy := ⟨1, 1, 0, 0, 3, 0, false, false⟩

/-- Second edge of the fee witness run (1000 msat base, 1000 ppm). -/
def wf1 : ChannelEdgePolicy := ⟨2, 2, 1000, 1000, 40, 1, false, false⟩

/-- A zero-delta policy offered as an origin edge to `processEdge`. -/
def cexZd : ChannelEdgePolicy := ⟨9, 5, 0, 0, 0, 0, false, false⟩

/-- A distance map where only vertex 5 has been reached (with amount 100). -/
def cexDist : Vertex → NodeWithDist :=
  fun v => if v = 5 then ⟨0, 100, 0⟩ else ⟨infinity, 0, 0⟩

/-- A hop record repeated to build over-long and duplicated hop lists. -/
def wHop : Hop := ⟨7, 42, 0, 100⟩

/-- 21 identical hops: longer than `HopLimit`, with duplicated destination
vertices and channel ids. -/
def wHops21 : List Hop := List.replicate 21 wHop

/-- Policy S→C of the `findKPaths` ordering counterexample graph. -/
def pSC : ChannelEdgePolicy := ⟨4, 3, 0, 0, 6, 0, false, false⟩

/-- Policy C→S of the ordering counterexample graph. -/
def pCS : ChannelEdgePolicy := ⟨4, 0, 0, 0, 6, 0, false, true⟩

/-- Policy C→T of the ordering counterexample graph. -/
def pCT : ChannelEdgePolicy := ⟨5, 4, 0, 0, 6, 0, false, false⟩

/-- Policy T→C of the ordering counterexample graph. -/
def pTC : ChannelEdgePolicy := ⟨5, 3, 0, 0, 6, 0, false, true⟩

/-- The ordering counterexample graph: S=0, C=3, T=4, channels S–C and C–T. -/
def g6 : Graph :=
  ⟨[0, 3, 4],
    [⟨4, 0, 3, 1000000, some pSC, some pCS⟩,
      ⟨5, 3, 4, 1000000, some pCT, some pTC⟩]⟩

/-- First seed edge (to a node outside the graph) of the ordering run. -/
def q1 : ChannelEdgePolicy := ⟨1, 1, 0, 0, 6, 0, false, false⟩

/-- Second seed edge of the ordering run. -/
def q2 : ChannelEdgePolicy := ⟨2, 2, 0, 0, 6, 0, false, false⟩

/-- Third seed edge of the ordering run, reaching the target 4. -/
def q3 : ChannelEdgePolicy := ⟨3, 4, 0, 0, 6, 0, false, false⟩

/-- Policy S→T of the single-channel `findPaths` witness graph. -/
def pST : ChannelEdgePolicy := ⟨1, 4, 0, 0, 6, 0, false, false⟩

/-- Policy T→S of the single-channel witness graph. -/
def pTS : ChannelEdgePolicy := ⟨1, 0, 0, 0, 6, 0, false, true⟩

/-- The single-channel witness graph: S=0, T=4. -/
def g8 : Graph := ⟨[0, 4], [⟨1, 0, 4, 1000000, some pST, some pTS⟩]⟩

/-- A 3-hop candidate for the heap-pop witness. -/
def wCand1 : PathCand := ⟨[q1, q2, q3], 3⟩

/-- A 2-hop candidate for the heap-pop witness. -/
def wCand2 : PathCand := ⟨[pSC, pCT], 2⟩

/-- The zero value of `Hop`, used as a lookup default. -/
def zeroHop : Hop := ⟨0, 0, 0, 0⟩

/-- The route `newRoute 1000 1000 0 [we0, we1, we2] 100 10` produces. -/
def wRoute1 : Route :=
  { totalTimeLock := 122, totalFees := 0, totalAmount := 1000,
    sourcePubKey := 0,
    hops := [⟨1, 1, 117, 1000⟩, ⟨2, 2, 110, 1000⟩, ⟨3, 3, 110, 1000⟩],
    nodeIndex := [1, 2, 3], chanIndex := [1, 2, 3] }

/-- The route `newRoute 100000 2000 0 [wf0, wf1] 100 10` produces: fee 1100
msat at the first hop (spec scenario 2). -/
def wRouteF : Route :=
  { totalTimeLock := 150, totalFees := 1100, totalAmount := 101100,
    sourcePubKey := 0,
    hops := [⟨1, 1, 110, 100000⟩, ⟨2, 2, 110, 100000⟩],
    nodeIndex := [1, 2], chanIndex := [1, 2] }

/-! Arithmetic helper lemmas. -/

theorem u32add_lt (a b : Nat) : u32add a b < M32 := by
  simp only [u32add, M32]; omega

theorem u32sub_u32add_cancel (a d : Nat) : u32sub (u32add a d) d = a % M32 := by
  simp only [u32sub, u32add, M32]; omega

theorem u32sub_u32add_self (a d : Nat) (ha : a < M32) :
    u32sub (u32add a d) a = d % M32 := by
  simp only [u32sub, u32add, M32] at *; omega

theorem u32sub_self (a : Nat) (ha : a < M32) : u32sub a a = 0 := by
  simp only [u32sub, M32] at *; omega

theorem toInt64_eq_self (x : Int) (h0 : 0 ≤ x) (h1 : x < 2 ^ 63) :
    toInt64 x = x := by
  unfold toInt64
  rw [Int.emod_eq_of_lt (by omega) (by omega)]; omega

/-! Claim C2. -/

/-- Claim C2, corrected: `computeFee` equals
`fee_base + floor(amt * fee_proportional_millionths / 1_000_000)` in exact
integer arithmetic provided neither the product nor the final sum exceeds
the `uint64` range; the Go computation wraps modulo `2^64` otherwise. -/
theorem computeFee_exact (amt : Nat) (edge : ChannelEdgePolicy)
    (h1 : amt * edge.feeProportionalMillionths < M64)
    (h2 : edge.feeBaseMSat + amt * edge.feeProportionalMillionths / 1000000 < M64) :
    computeFee amt edge =
      edge.feeBaseMSat + amt * edge.feeProportionalMillionths / 1000000 := by
  simp only [computeFee, u64add, u64mul]
  rw [Nat.mod_eq_of_lt h1, Nat.mod_eq_of_lt h2]

/-- Claim C2, witness: the exact formula at spec scenario 2's policy
(1000 msat base, 1000 ppm, amount 100000 msat). -/
theorem computeFee_exact_witness :
    computeFee 100000 wPol =
      wPol.feeBaseMSat + 100000 * wPol.feeProportionalMillionths / 1000000 :=
  computeFee_exact 100000 wPol (by decide) (by decide)

/-- Claim C2, counterexample: at `amt = 2^40` against a policy with rate
`2^24` the `uint64` product wraps to 0, so `computeFee` returns 0 while the
claimed exact formula gives `floor(2^64 / 10^6) = 18446744073709`. -/
theorem computeFee_overflow_cex :
    computeFee (2 ^ 40) cexPol = 0 ∧
    cexPol.feeBaseMSat + 2 ^ 40 * cexPol.feeProportionalMillionths / 1000000 =
      18446744073709 ∧
    (0 : Nat) ≠ 18446744073709 :=
  ⟨by decide, by decide, by decide⟩

/-! Claim C3. -/

/-- Claim C3, corrected: `edgeWeight` equals
`fee + floor(locked_amount * timelock_delta * 15 / 1_000_000_000)` in exact
(mathematical) integer arithmetic only when the intermediate product
`locked_amount * timelock_delta * 15` and the final sum stay below `2^63`;
the code performs the multiplication in plain `int64` arithmetic, which
wraps for larger products. -/
theorem edgeWeight_exact (lockedAmt fee timeLockDelta : Nat)
    (h1 : lockedAmt * timeLockDelta * 15 < 2 ^ 63)
    (h2 : fee + lockedAmt * timeLockDelta * 15 / 1000000000 < 2 ^ 63) :
    edgeWeight lockedAmt fee timeLockDelta =
      ((fee + lockedAmt * timeLockDelta * 15 / 1000000000 : Nat) : Int) := by
  have hfee : fee < 2 ^ 63 := lt_of_le_of_lt (Nat.le_add_right _ _) h2
  have efee : toInt64 (fee : Int) = (fee : Int) :=
    toInt64_eq_self _ (Int.natCast_nonneg _) (by exact_mod_cast hfee)
  have ezero : toInt64 (0 : Int) = 0 := by decide
  rcases Nat.lt_or_ge lockedAmt (2 ^ 63) with ha | ha
  · rcases Nat.lt_or_ge timeLockDelta (2 ^ 63) with hd | hd
    · have had : lockedAmt * timeLockDelta < 2 ^ 63 := by
        calc lockedAmt * timeLockDelta ≤ lockedAmt * timeLockDelta * 15 :=
            Nat.le_mul_of_pos_right _ (by norm_num)
          _ < 2 ^ 63 := h1
      have e1 : toInt64 (lockedAmt : Int) = (lockedAmt : Int) :=
        toInt64_eq_self _ (Int.natCast_nonneg _) (by exact_mod_cast ha)
      have e2 : toInt64 (timeLockDelta : Int) = (timeLockDelta : Int) :=
        toInt64_eq_self _ (Int.natCast_nonneg _) (by exact_mod_cast hd)
      have e3 : toInt64 ((lockedAmt : Int) * (timeLockDelta : Int)) =
          ((lockedAmt * timeLockDelta : Nat) : Int) := by
        rw [show ((lockedAmt : Int) * (timeLockDelta : Int)) =
          ((lockedAmt * timeLockDelta : Nat) : Int) by push_cast; ring]
        exact toInt64_eq_self _ (Int.natCast_nonneg _) (by exact_mod_cast had)
      have e4 : toInt64 (((lockedAmt * timeLockDelta : Nat) : Int) *
          RiskFactorBillionths) =
          ((lockedAmt * timeLockDelta * 15 : Nat) : Int) := by
        rw [show (((lockedAmt * timeLockDelta : Nat) : Int) *
            RiskFactorBillionths) =
          ((lockedAmt * timeLockDelta * 15 : Nat) : Int) by
            unfold RiskFactorBillionths; push_cast; ring]
        exact toInt64_eq_self _ (Int.natCast_nonneg _) (by exact_mod_cast h1)
      simp only [edgeWeight, i64mul, i64add, i64ofU64]
      rw [e1, e2, e3, e4,
        show Int.tdiv ((lockedAmt * timeLockDelta * 15 : Nat) : Int) 1000000000 =
          ((lockedAmt * timeLockDelta * 15 / 1000000000 : Nat) : Int) from rfl,
        efee,
        show ((fee : Int) +
            ((lockedAmt * timeLockDelta * 15 / 1000000000 : Nat) : Int)) =
          ((fee + lockedAmt * timeLockDelta * 15 / 1000000000 : Nat) : Int) by
            push_cast; ring]
      exact toInt64_eq_self _ (Int.natCast_nonneg _) (by exact_mod_cast h2)
    · have hz : lockedAmt = 0 := by
        by_contra hne
        have h1' : 1 ≤ lockedAmt := Nat.one_le_iff_ne_zero.mpr hne
        have : timeLockDelta ≤ lockedAmt * timeLockDelta * 15 := by
          calc timeLockDelta = 1 * timeLockDelta * 1 := by ring
            _ ≤ lockedAmt * timeLockDelta * 15 :=
              Nat.mul_le_mul (Nat.mul_le_mul_right _ h1') (by norm_num)
        omega
      subst hz
      simp only [edgeWeight, i64mul, i64add, i64ofU64]
      rw [show ((0 : Nat) : Int) = 0 from rfl, ezero, zero_mul, ezero, zero_mul,
        ezero, show Int.tdiv 0 1000000000 = 0 from rfl, efee, add_zero, efee]
      simp
  · have hz : timeLockDelta = 0 := by
      by_contra hne
      have h1' : 1 ≤ timeLockDelta := Nat.one_le_iff_ne_zero.mpr hne
      have : lockedAmt ≤ lockedAmt * timeLockDelta * 15 := by
        calc lockedAmt = lockedAmt * 1 * 1 := by ring
          _ ≤ lockedAmt * timeLockDelta * 15 :=
            Nat.mul_le_mul (Nat.mul_le_mul_left _ h1') (by norm_num)
      omega
    subst hz
    simp only [edgeWeight, i64mul, i64add, i64ofU64]
    rw [show ((0 : Nat) : Int) = 0 from rfl, ezero, mul_zero, ezero, zero_mul,
      ezero, show Int.tdiv 0 1000000000 = 0 from rfl, efee, add_zero, efee]
    simp

/-- Claim C3, witness: the exact formula at a realistic input (100000 msat
locked, fee 1100 msat, delta 40). -/
theorem edgeWeight_exact_witness :
    edgeWeight 100000 1100 40 =
      ((1100 + 100000 * 40 * 15 / 1000000000 : Nat) : Int) :=
  edgeWeight_exact 100000 1100 40 (by norm_num) (by norm_num)

/-- Claim C3, counterexample: at `locked_amount = 2^44` (well within
`uint64`) and `timelock_delta = 65535` the `int64` product
`2^44 * 65535 * 15` wraps, so `edgeWeight` returns the negative weight
`-1153185387`, while the claimed exact arithmetic gives `17293558686`. -/
theorem edgeWeight_overflow_cex :
    edgeWeight (2 ^ 44) 0 65535 = -1153185387 ∧
    ((0 + 2 ^ 44 * 65535 * 15 / 1000000000 : Nat) : Int) = 17293558686 ∧
    (-1153185387 : Int) ≠ 17293558686 :=
  ⟨by decide, by decide, by decide⟩

/-! Claim C5. -/

set_option maxHeartbeats 1000000 in
/-- The early gate of `processEdge` never rejects for the zero-delta
reason: that rejection belongs to the final check alone. -/
theorem processEdgeGate_ne_zeroDelta (origin : Vertex)
    (outgoingChannelID : Option Nat) (ignoredNodes : List Vertex)
    (ignoredEdges : List edgeLocator) (feeLimit amt : Nat)
    (dist : Vertex → NodeWithDist) (fromVertex : Vertex)
    (edge : ChannelEdgePolicy) (bandwidth : Nat) (toNode : Vertex) :
    processEdgeGate origin outgoingChannelID ignoredNodes ignoredEdges
      feeLimit amt dist fromVertex edge bandwidth toNode ≠
      .error .zeroTimeLockDelta := by
  intro h
  simp only [processEdgeGate] at h
  split_ifs at h
  all_goals first
    | exact Except.noConfusion h
    | (injection h with h2; exact RejectReason.noConfusion h2)

/-- Claim C5, corrected: the zero-time-lock-delta rejection of the
`processEdge` closure is unconditional: a relaxation is rejected with the
zero-delta reason exactly when it passes all earlier checks and
`edge.TimeLockDelta == 0`, whether or not the edge is an origin edge — in
particular no relaxation ever succeeds with a zero-delta edge. -/
theorem processEdge_zeroDelta (origin : Vertex) (outgoingChannelID : Option Nat)
    (ignoredNodes : List Vertex) (ignoredEdges : List edgeLocator)
    (feeLimit amt : Nat) (dist : Vertex → NodeWithDist)
    (fromVertex : Vertex) (edge : ChannelEdgePolicy) (bandwidth : Nat)
    (toNode : Vertex) :
    (processEdgeCheck origin outgoingChannelID ignoredNodes ignoredEdges
        feeLimit amt dist fromVertex edge bandwidth toNode =
        .error .zeroTimeLockDelta ↔
      (processEdgeGate origin outgoingChannelID ignoredNodes ignoredEdges
        feeLimit amt dist fromVertex edge bandwidth toNode).isOk = true ∧
      edge.timeLockDelta = 0) ∧
    (∀ nd, processEdgeCheck origin outgoingChannelID ignoredNodes ignoredEdges
        feeLimit amt dist fromVertex edge bandwidth toNode = .ok nd →
      edge.timeLockDelta ≠ 0) := by
  constructor
  · constructor
    · intro h
      unfold processEdgeCheck at h
      cases hg : processEdgeGate origin outgoingChannelID ignoredNodes
          ignoredEdges feeLimit amt dist fromVertex edge bandwidth toNode with
      | error r =>
        rw [hg] at h
        injection h with h2
        subst h2
        exact absurd hg (processEdgeGate_ne_zeroDelta origin outgoingChannelID
          ignoredNodes ignoredEdges feeLimit amt dist fromVertex edge
          bandwidth toNode)
      | ok nd =>
        refine ⟨rfl, ?_⟩
        by_cases hz : edge.timeLockDelta = 0
        · exact hz
        · rw [hg] at h
          have h' : (if edge.timeLockDelta = 0 then
              (Except.error RejectReason.zeroTimeLockDelta :
                Except RejectReason NodeWithDist)
              else .ok nd) = .error .zeroTimeLockDelta := h
          rw [if_neg hz] at h'
          exact Except.noConfusion h' 
    · rintro ⟨hok, hz⟩
      unfold processEdgeCheck
      cases hg : processEdgeGate origin outgoingChannelID ignoredNodes
          ignoredEdges feeLimit amt dist fromVertex edge bandwidth toNode with
      | error r => rw [hg] at hok; exact Bool.noConfusion hok
      | ok nd =>
        show (if edge.timeLockDelta = 0 then
            (Except.error RejectReason.zeroTimeLockDelta :
              Except RejectReason NodeWithDist)
            else .ok nd) = .error .zeroTimeLockDelta
        rw [if_pos hz]
  · intro nd' h
    unfold processEdgeCheck at h
    cases hg : processEdgeGate origin outgoingChannelID ignoredNodes
        ignoredEdges feeLimit amt dist fromVertex edge bandwidth toNode with
    | error r => rw [hg] at h; exact Except.noConfusion h
    | ok nd =>
      rw [hg] at h
      intro hz
      have h' : (if edge.timeLockDelta = 0 then
          (Except.error RejectReason.zeroTimeLockDelta :
            Except RejectReason NodeWithDist)
          else .ok nd) = .ok nd' := h
      rw [if_pos hz] at h'
      exact Except.noConfusion h' 

/-- Claim C5, counterexample: an origin edge (`fromVertex = origin = 0`)
with `TimeLockDelta = 0` that passes every earlier check is nevertheless
rejected with the zero-delta reason, refuting the claimed origin-edge
exemption. -/
theorem processEdge_zeroDelta_origin_cex :
    processEdgeCheck 0 none [] [] 1000 100 cexDist 0 cexZd 1000000 5 =
      .error .zeroTimeLockDelta ∧
    cexZd.timeLockDelta = 0 :=
  ⟨by decide, by decide⟩

/-- Claim C5, witness: instantiating the corrected statement at the
concrete zero-delta origin relaxation: the rejection reason of that call is
the zero-delta one exactly because the gate passes and the delta is 0. -/
theorem processEdge_zeroDelta_witness :
    (processEdgeGate 0 none [] [] 1000 100 cexDist 0 cexZd 1000000 5).isOk =
      true ∧ cexZd.timeLockDelta = 0 :=
  (processEdge_zeroDelta 0 none [] [] 1000 100 cexDist 0 cexZd 1000000 5).1.mp
    (by decide)

/-! Claim C10. -/

/-- Claim C10, confirmed: `NewRouteFromHops` fails (with
`ErrNoRouteHopsProvided`) exactly on the empty hop list, and succeeds on
every non-empty hop list — including lists longer than `HopLimit` and lists
with duplicate vertices or channel ids — performing no hop-limit or
uniqueness validation. -/
theorem NewRouteFromHops_empty_iff (amtToSend timeLock : Nat)
    (sourceVertex : Vertex) (hops : List Hop) :
    (NewRouteFromHops amtToSend timeLock sourceVertex hops =
      .error .noRouteHopsProvided ↔ hops = []) ∧
    (hops ≠ [] →
      (NewRouteFromHops amtToSend timeLock sourceVertex hops).isOk = true) := by
  cases hops with
  | nil => exact ⟨⟨fun _ => rfl, fun _ => rfl⟩, fun h => absurd rfl h⟩
  | cons h t =>
    refine ⟨⟨fun hc => ?_, fun hc => by simp at hc⟩, fun _ => rfl⟩
    simp [NewRouteFromHops] at hc

/-- Claim C10, witness: a 21-hop list (over the hop limit) made of a single
repeated hop (duplicate vertices and channel ids throughout) is accepted. -/
theorem NewRouteFromHops_empty_iff_witness :
    (NewRouteFromHops 100 0 0 wHops21).isOk = true :=
  (NewRouteFromHops_empty_iff 100 0 0 wHops21).2 (by decide)

/-! `newRouteLoop` structure lemmas. -/

theorem newRouteLoop_single (a H D : Nat) (e : ChannelEdgePolicy) :
    newRouteLoop a H D [e] =
      ([{ pubKeyBytes := e.node, channelID := e.channelID,
          outgoingTimeLock := u32add H D, amtToForward := a }],
        u32add H D, u64add a 0) := rfl

theorem newRouteLoop_cons_cons (a H D : Nat) (e e' : ChannelEdgePolicy)
    (rest : List ChannelEdgePolicy) :
    newRouteLoop a H D (e :: e' :: rest) =
      ({ pubKeyBytes := e.node, channelID := e.channelID,
          outgoingTimeLock :=
            u32sub (u32add (newRouteLoop a H D (e' :: rest)).2.1
              e'.timeLockDelta) e'.timeLockDelta,
          amtToForward := (newRouteLoop a H D (e' :: rest)).2.2 } ::
          (newRouteLoop a H D (e' :: rest)).1,
        u32add (newRouteLoop a H D (e' :: rest)).2.1 e'.timeLockDelta,
        u64add (newRouteLoop a H D (e' :: rest)).2.2
          (computeFee (newRouteLoop a H D (e' :: rest)).2.2 e')) := rfl

theorem newRouteLoop_length (a H D : Nat) :
    ∀ pathEdges : List ChannelEdgePolicy,
      ((newRouteLoop a H D pathEdges).1).length = pathEdges.length
  | [] => rfl
  | [_] => rfl
  | e :: e' :: rest => by
    rw [newRouteLoop_cons_cons, List.length_cons, List.length_cons,
      newRouteLoop_length a H D (e' :: rest), List.length_cons]

theorem newRouteLoop_ttl_lt (a H D : Nat) (e : ChannelEdgePolicy)
    (es : List ChannelEdgePolicy) :
    (newRouteLoop a H D (e :: es)).2.1 < M32 := by
  cases es with
  | nil => rw [newRouteLoop_single]; exact u32add_lt H D
  | cons e' rest => rw [newRouteLoop_cons_cons]; exact u32add_lt _ _

theorem newRouteLoop_last_amt (a H D : Nat) :
    ∀ (es : List ChannelEdgePolicy) (e : ChannelEdgePolicy) (z : Hop),
      (((newRouteLoop a H D (e :: es)).1).getLastD z).amtToForward = a
  | [], _, _ => rfl
  | e' :: rest, e, z => by
    rw [newRouteLoop_cons_cons, List.getLastD_cons]
    exact newRouteLoop_last_amt a H D rest e' _

theorem newRouteLoop_last_out (a H D : Nat) :
    ∀ (es : List ChannelEdgePolicy) (e : ChannelEdgePolicy) (z : Hop),
      (((newRouteLoop a H D (e :: es)).1).getLastD z).outgoingTimeLock =
        u32add H D
  | [], _, _ => rfl
  | e' :: rest, e, z => by
    rw [newRouteLoop_cons_cons, List.getLastD_cons]
    exact newRouteLoop_last_out a H D rest e' _

/-- The successive outgoing time locks produced by the `newRoute` loop: the
`uint32` difference between hop `i` and hop `i+1` is the time-lock delta of
`pathEdges[i+2]` when that edge exists, and 0 for the before-last hop. -/
theorem newRouteLoop_interior (a H D : Nat) :
    ∀ (es : List ChannelEdgePolicy) (i : Nat),
      i + 1 < ((newRouteLoop a H D es).1).length →
      u32sub ((((newRouteLoop a H D es).1).getD i zeroHop).outgoingTimeLock)
        ((((newRouteLoop a H D es).1).getD (i + 1) zeroHop).outgoingTimeLock) =
      (if i + 2 < es.length
        then ((es.getD (i + 2) zeroPolicy).timeLockDelta) % M32 else 0)
  | [], i, hi => by simp [newRouteLoop] at hi
  | [e], i, hi => by rw [newRouteLoop_single] at hi; simp at hi
  | e :: e' :: rest, 0, hi => by
    rw [newRouteLoop_cons_cons, List.getD_cons_succ]
    cases rest with
    | nil =>
      rw [newRouteLoop_single]
      show u32sub (u32sub (u32add (u32add H D) e'.timeLockDelta)
        e'.timeLockDelta) (u32add H D) = _
      rw [u32sub_u32add_cancel, Nat.mod_eq_of_lt (u32add_lt H D),
        u32sub_self _ (u32add_lt H D)]
      simp
    | cons r0 rest' =>
      rw [newRouteLoop_cons_cons]
      show u32sub (u32sub (u32add
          (u32add (newRouteLoop a H D (r0 :: rest')).2.1 r0.timeLockDelta)
          e'.timeLockDelta) e'.timeLockDelta)
        (u32sub (u32add (newRouteLoop a H D (r0 :: rest')).2.1
          r0.timeLockDelta) r0.timeLockDelta) = _
      rw [u32sub_u32add_cancel, u32sub_u32add_cancel,
        Nat.mod_eq_of_lt (u32add_lt _ _),
        Nat.mod_eq_of_lt (newRouteLoop_ttl_lt a H D r0 rest'),
        u32sub_u32add_self _ _ (newRouteLoop_ttl_lt a H D r0 rest')]
      simp [List.getD_cons_succ]
  | e :: e' :: rest, i + 1, hi => by
    rw [newRouteLoop_cons_cons] at hi ⊢
    rw [List.getD_cons_succ, List.getD_cons_succ]
    rw [List.length_cons, Nat.add_lt_add_iff_right] at hi
    rw [newRouteLoop_interior a H D (e' :: rest) i hi]
    have hlen : (e :: e' :: rest).length = (e' :: rest).length + 1 := rfl
    by_cases hc : i + 2 < (e' :: rest).length
    · rw [if_pos hc, if_pos (by omega : i + 1 + 2 < (e :: e' :: rest).length)]
      rfl
    · rw [if_neg hc, if_neg (by omega : ¬ i + 1 + 2 < (e :: e' :: rest).length)]

/-- `NewRouteFromHops` on a non-empty hop list, as an explicit record. -/
theorem NewRouteFromHops_cons (a tl : Nat) (src : Vertex) (h0 : Hop)
    (t : List Hop) :
    NewRouteFromHops a tl src (h0 :: t) = .ok
      { sourcePubKey := src, hops := h0 :: t, totalTimeLock := tl,
        totalAmount := a,
        totalFees := u64sub a ((h0 :: t).getLastD h0).amtToForward,
        nodeIndex := (h0 :: t).map Hop.pubKeyBytes,
        chanIndex := (h0 :: t).map Hop.channelID } := rfl

/-- Functional characterization of `newRoute` on a non-empty edge list: it
is the fee-limit test applied to the route assembled from the backward
loop, whose total fee is the loop's final incoming amount minus the
payment amount. -/
theorem newRoute_cons_eq (a fl : Nat) (src : Vertex) (H D : Nat)
    (e0 : ChannelEdgePolicy) (es' : List ChannelEdgePolicy) :
    newRoute a fl src (e0 :: es') H D =
      (if fl < u64sub (newRouteLoop a H D (e0 :: es')).2.2 a then
        .error .feeLimitExceeded
      else .ok
        { sourcePubKey := src
          hops := (newRouteLoop a H D (e0 :: es')).1
          totalTimeLock := (newRouteLoop a H D (e0 :: es')).2.1
          totalAmount := (newRouteLoop a H D (e0 :: es')).2.2
          totalFees := u64sub (newRouteLoop a H D (e0 :: es')).2.2 a
          nodeIndex := ((newRouteLoop a H D (e0 :: es')).1).map Hop.pubKeyBytes
          chanIndex := ((newRouteLoop a H D (e0 :: es')).1).map
            Hop.channelID }) := by
  have hlen := newRouteLoop_length a H D (e0 :: es')
  rcases hs1 : (newRouteLoop a H D (e0 :: es')).1 with _ | ⟨h0, t⟩
  · rw [hs1] at hlen; simp at hlen
  · have hlast : ((h0 :: t).getLastD h0).amtToForward = a := by
      rw [← hs1]; exact newRouteLoop_last_amt a H D es' e0 h0
    simp only [newRoute]
    rw [hs1, NewRouteFromHops_cons]
    show (if u64sub (newRouteLoop a H D (e0 :: es')).2.2
        ((h0 :: t).getLastD h0).amtToForward > fl then
        (Except.error Err.feeLimitExceeded : Except Err Route)
      else .ok
        { sourcePubKey := src, hops := h0 :: t,
          totalTimeLock := (newRouteLoop a H D (e0 :: es')).2.1,
          totalAmount := (newRouteLoop a H D (e0 :: es')).2.2,
          totalFees := u64sub (newRouteLoop a H D (e0 :: es')).2.2
            ((h0 :: t).getLastD h0).amtToForward,
          nodeIndex := (h0 :: t).map Hop.pubKeyBytes,
          chanIndex := (h0 :: t).map Hop.channelID }) = _
    rw [hlast]


/-! Claim C4. -/

/-- Claim C4, confirmed: on a non-empty edge list `newRoute` fails with
`ErrFeeLimitExceeded` exactly when the computed total fee (the loop's final
incoming amount minus the payment amount, in `uint64`) exceeds the fee
limit, and on success the route satisfies
`TotalFees = TotalAmount - amtToSend` and `TotalFees ≤ feeLimit`. -/
theorem newRoute_feeLimit (amtToSend feeLimit : Nat) (sourceVertex : Vertex)
    (pathEdges : List ChannelEdgePolicy) (currentHeight finalCLTVDelta : Nat)
    (hne : pathEdges ≠ []) :
    (newRoute amtToSend feeLimit sourceVertex pathEdges currentHeight
        finalCLTVDelta = .error .feeLimitExceeded ↔
      feeLimit < u64sub
        (newRouteLoop amtToSend currentHeight finalCLTVDelta pathEdges).2.2
        amtToSend) ∧
    (∀ route, newRoute amtToSend feeLimit sourceVertex pathEdges currentHeight
        finalCLTVDelta = .ok route →
      route.totalFees = u64sub route.totalAmount amtToSend ∧
      route.totalFees ≤ feeLimit) := by
  rcases pathEdges with _ | ⟨e0, es'⟩
  · exact absurd rfl hne
  · rw [newRoute_cons_eq]
    by_cases hlim : feeLimit < u64sub
        (newRouteLoop amtToSend currentHeight finalCLTVDelta (e0 :: es')).2.2
        amtToSend
    · rw [if_pos hlim]
      exact ⟨⟨fun _ => hlim, fun _ => rfl⟩,
        fun route h => Except.noConfusion h⟩
    · rw [if_neg hlim]
      refine ⟨⟨fun h => Except.noConfusion h, fun h => absurd h hlim⟩,
        fun route h => ?_⟩
      cases Except.ok.inj h
      exact ⟨rfl, Nat.le_of_not_lt hlim⟩

/-- Claim C4, witness: the fee-limit characterization instantiated at a
concrete two-edge route charging 1100 msat against a 2000 msat limit. -/
theorem newRoute_feeLimit_witness :
    (newRoute 100000 2000 0 [wf0, wf1] 100 10 = .error .feeLimitExceeded ↔
      2000 < u64sub (newRouteLoop 100000 100 10 [wf0, wf1]).2.2 100000) :=
  (newRoute_feeLimit 100000 2000 0 [wf0, wf1] 100 10 (by decide)).1

/-! Claim C9. -/

theorem computePathFeeLoop_eq_newRouteLoop (a H D : Nat) :
    ∀ es : List ChannelEdgePolicy,
      computePathFeeLoop a es = (newRouteLoop a H D es).2.2
  | [] => rfl
  | [_] => rfl
  | e :: e' :: rest => by
    rw [newRouteLoop_cons_cons]
    show u64add (computePathFeeLoop a (e' :: rest))
        (computeFee (computePathFeeLoop a (e' :: rest)) e') = _
    rw [computePathFeeLoop_eq_newRouteLoop a H D (e' :: rest)]

/-- Claim C9, confirmed: whenever `newRoute` succeeds, the standalone
`computePathFee` pass computes exactly the `TotalFees` of the route
`newRoute` returns. -/
theorem computePathFee_agrees (amtToSend feeLimit : Nat)
    (sourceVertex : Vertex) (pathEdges : List ChannelEdgePolicy)
    (currentHeight finalCLTVDelta : Nat) (route : Route)
    (hok : newRoute amtToSend feeLimit sourceVertex pathEdges currentHeight
      finalCLTVDelta = .ok route) :
    computePathFee amtToSend pathEdges = route.totalFees := by
  rcases pathEdges with _ | ⟨e0, es'⟩
  · exact Except.noConfusion hok
  · rw [newRoute_cons_eq] at hok
    by_cases hlim : feeLimit < u64sub
        (newRouteLoop amtToSend currentHeight finalCLTVDelta (e0 :: es')).2.2
        amtToSend
    · rw [if_pos hlim] at hok; exact Except.noConfusion hok
    · rw [if_neg hlim] at hok
      cases Except.ok.inj hok
      show computePathFee amtToSend (e0 :: es') = u64sub
        (newRouteLoop amtToSend currentHeight finalCLTVDelta (e0 :: es')).2.2
        amtToSend
      unfold computePathFee
      rw [computePathFeeLoop_eq_newRouteLoop amtToSend currentHeight
        finalCLTVDelta (e0 :: es')]

/-- Claim C9, witness: `computePathFee` agrees with the `TotalFees` (1100
msat) of the concrete two-edge route. -/
theorem computePathFee_agrees_witness :
    computePathFee 100000 [wf0, wf1] = wRouteF.totalFees :=
  computePathFee_agrees 100000 2000 0 [wf0, wf1] 100 10 wRouteF (by decide)

/-! Claim C1. -/

/-- Claim C1, corrected: for every successful `newRoute` call the last
hop's `OutgoingTimeLock` is `currentHeight + finalCLTVDelta` (in `uint32`),
but the interior difference `hops[i].OutgoingTimeLock -
hops[i+1].OutgoingTimeLock` equals `pathEdges[i+2].TimeLockDelta` (not
`pathEdges[i+1]` as claimed) when `i+2` is a valid index, and 0 for the
pair before the final hop. -/
theorem newRoute_timelocks (amtToSend feeLimit : Nat) (sourceVertex : Vertex)
    (pathEdges : List ChannelEdgePolicy) (currentHeight finalCLTVDelta : Nat)
    (route : Route)
    (hok : newRoute amtToSend feeLimit sourceVertex pathEdges currentHeight
      finalCLTVDelta = .ok route)
    (hdelta : ∀ e ∈ pathEdges, e.timeLockDelta < M32) :
    ((route.hops.getLastD zeroHop).outgoingTimeLock =
      u32add currentHeight finalCLTVDelta) ∧
    (∀ i, i + 1 < route.hops.length →
      u32sub ((route.hops.getD i zeroHop).outgoingTimeLock)
        ((route.hops.getD (i + 1) zeroHop).outgoingTimeLock) =
      (if i + 2 < pathEdges.length
        then (pathEdges.getD (i + 2) zeroPolicy).timeLockDelta else 0)) := by
  rcases pathEdges with _ | ⟨e0, es'⟩
  · exact Except.noConfusion hok
  · rw [newRoute_cons_eq] at hok
    by_cases hlim : feeLimit < u64sub
        (newRouteLoop amtToSend currentHeight finalCLTVDelta (e0 :: es')).2.2
        amtToSend
    · rw [if_pos hlim] at hok; exact Except.noConfusion hok
    · rw [if_neg hlim] at hok
      cases Except.ok.inj hok
      constructor
      · exact newRouteLoop_last_out amtToSend currentHeight finalCLTVDelta
          es' e0 zeroHop
      · intro i hi
        rw [newRouteLoop_interior amtToSend currentHeight finalCLTVDelta
          (e0 :: es') i hi]
        by_cases hc : i + 2 < (e0 :: es').length
        · rw [if_pos hc, if_pos hc]
          have hmem : (e0 :: es').getD (i + 2) zeroPolicy ∈ e0 :: es' := by
            rw [List.getD_eq_getElem (e0 :: es') zeroPolicy hc]
            exact List.getElem_mem hc
          exact Nat.mod_eq_of_lt (hdelta _ hmem)
        · rw [if_neg hc, if_neg hc]

/-- Claim C1, witness: the corrected invariants instantiated on a concrete
three-edge route: outgoing time locks `[117, 110, 110]` with deltas
`pathEdges = [we0(3), we1(5), we2(7)]`: the difference at interior index 0
is `7 = pathEdges[2].TimeLockDelta` and at index 1 it is `0`. -/
theorem newRoute_timelocks_witness :
    ((wRoute1.hops.getLastD zeroHop).outgoingTimeLock = u32add 100 10) ∧
    (u32sub ((wRoute1.hops.getD 0 zeroHop).outgoingTimeLock)
        ((wRoute1.hops.getD 1 zeroHop).outgoingTimeLock) =
      (if 0 + 2 < [we0, we1, we2].length
        then ([we0, we1, we2].getD (0 + 2) zeroPolicy).timeLockDelta else 0)) :=
  ⟨(newRoute_timelocks 1000 1000 0 [we0, we1, we2] 100 10 wRoute1
      (by decide) (by decide)).1,
    (newRoute_timelocks 1000 1000 0 [we0, we1, we2] 100 10 wRoute1
      (by decide) (by decide)).2 0 (by decide)⟩

/-- Claim C1, counterexample: the successful call
`newRoute 1000 1000 0 [ce10, ce11] 100 10` yields outgoing time locks
`[110, 110]`: at the interior index 0 the difference is 0, while
`pathEdges[1].TimeLockDelta = 5` — the claimed interior invariant fails. -/
theorem newRoute_timelocks_cex :
    (newRoute 1000 1000 0 [ce10, ce11] 100 10).map
      (fun r => r.hops.map Hop.outgoingTimeLock) = .ok [110, 110] ∧
    u32sub 110 110 = 0 ∧ ce11.timeLockDelta = 5 ∧ (0 : Nat) ≠ 5 :=
  ⟨by decide, by decide, by decide, by decide⟩


/-! Claim C7. -/

/-- `kShortestLoop` exits immediately when enough valid paths are already
confirmed. -/
theorem kShortestLoop_done (fuel : Nat) (g : graphParams) (r : restrictParams)
    (targetV : Vertex) (amt : Nat) (numPaths : Nat)
    (shortest : List (List ChannelEdgePolicy)) (cand : List PathCand)
    (validNum : Nat) (h : ¬ validNum < numPaths) :
    kShortestLoop g r targetV amt numPaths fuel shortest cand validNum =
      .ok shortest := by
  unfold kShortestLoop
  rw [if_neg h]

/-- Claim C7, corrected: for every graph and every seed path of at most 20
edges, `findKPaths` with `numPaths = 1` returns a singleton — but its sole
element is the seed path prefixed with the artificial self-edge
`{Node: source}`; the artificial edge is stripped (yielding exactly the
seed) only when `originVertex` is set and differs from the source. -/
theorem findKPaths_single (fuel : Nat) (g : graphParams) (r : restrictParams)
    (sourceV targetV : Vertex) (amt : Nat)
    (startingPath : List ChannelEdgePolicy)
    (hlen : startingPath.length ≤ HopLimit) :
    findKPaths fuel g r sourceV targetV amt startingPath 1 =
      .ok [(match g.originVertex with
        | some o =>
          if sourceV ≠ o then startingPath
          else { zeroPolicy with node := sourceV } :: startingPath
        | none => { zeroPolicy with node := sourceV } :: startingPath)] := by
  have hval : ({ zeroPolicy with node := sourceV } :: startingPath).length ≤
      HopLimit + 1 := by
    simp only [List.length_cons]
    omega
  simp only [findKPaths]
  rw [if_pos hval]
  rw [kShortestLoop_done fuel g r targetV amt 1 _ [] 1 (by omega)]
  simp only [List.filter_cons, List.filter_nil, hval]
  cases g.originVertex with
  | none => simp
  | some o =>
    by_cases hso : sourceV ≠ o
    · simp [hso]
    · simp [hso]

/-- Claim C7, counterexample: with `originVertex` unset, `findKPaths` on
seed `[q3]` with `numPaths = 1` returns the seed with the artificial
self-edge still prepended — not exactly the singleton of the seed. -/
theorem findKPaths_single_cex :
    findKPaths 5 ⟨⟨[], []⟩, [], [], none⟩ ⟨[], [], noFeeLimit, none, false⟩
        0 4 1000 [q3] 1 = .ok [[zeroPolicy, q3]] ∧
    ([[zeroPolicy, q3]] : List (List ChannelEdgePolicy)) ≠ [[q3]] :=
  ⟨by decide, by decide⟩

/-- Claim C7, witness: when `originVertex` is set to a vertex other than
the source, the artificial edge is stripped and the call returns exactly
the singleton of the seed. -/
theorem findKPaths_single_witness :
    findKPaths 7 ⟨g8, [], [], some 9⟩ ⟨[], [], noFeeLimit, none, false⟩
      0 4 1000 [q3] 1 = .ok [[q3]] := by
  rw [findKPaths_single 7 ⟨g8, [], [], some 9⟩
    ⟨[], [], noFeeLimit, none, false⟩ 0 4 1000 [q3] (by decide)]
  decide

/-! Claim C6. -/

/-- `popMinPath` returns `none` only on the empty heap. -/
theorem popMinPath_eq_none : ∀ l : List PathCand, popMinPath l = none → l = []
  | [], _ => rfl
  | e :: tail, h => by
    rw [popMinPath] at h
    cases htail : popMinPath tail with
    | none => rw [htail] at h; exact Option.noConfusion h
    | some me =>
      obtain ⟨m, rest2⟩ := me
      rw [htail] at h
      have h2 : (if e.dist ≤ m.dist then some (e, tail)
          else some (m, e :: rest2)) = (none : Option (PathCand × List PathCand)) := h
      by_cases hle : e.dist ≤ m.dist
      · rw [if_pos hle] at h2; exact Option.noConfusion h2
      · rw [if_neg hle] at h2; exact Option.noConfusion h2

/-- Complete characterization of `popMinPath`: it removes the
earliest-inserted candidate of minimal hop count: everything before the
popped element is strictly larger, everything after it at least as
large. -/
theorem popMinPath_spec :
    ∀ (l : List PathCand) (p : PathCand) (rest : List PathCand),
      popMinPath l = some (p, rest) →
      ∃ pre suf, l = pre ++ p :: suf ∧ rest = pre ++ suf ∧
        (∀ q ∈ pre, p.dist < q.dist) ∧ (∀ q ∈ suf, p.dist ≤ q.dist)
  | [], p, rest, h => by simp [popMinPath] at h
  | e :: tail, p, rest, h => by
    rw [popMinPath] at h
    cases htail : popMinPath tail with
    | none =>
      rw [htail] at h
      have hnil : tail = [] := popMinPath_eq_none tail htail
      injection h with h2
      cases h2
      exact ⟨[], [], by simp [hnil], by simp, by simp, by simp⟩
    | some me =>
      obtain ⟨m, rest2⟩ := me
      rw [htail] at h
      have h2 : (if e.dist ≤ m.dist then some (e, tail)
          else some (m, e :: rest2)) = some (p, rest) := h
      obtain ⟨pre, suf, hl, hr, hpre, hsuf⟩ :=
        popMinPath_spec tail m rest2 htail
      by_cases hle : e.dist ≤ m.dist
      · rw [if_pos hle] at h2
        injection h2 with h3
        cases h3
        refine ⟨[], tail, rfl, rfl, by simp, ?_⟩
        intro q hq
        rw [hl] at hq
        rcases List.mem_append.mp hq with hq | hq
        · exact le_trans hle (le_of_lt (hpre q hq))
        · rcases List.mem_cons.mp hq with rfl | hq
          · exact hle
          · exact le_trans hle (hsuf q hq)
      · rw [if_neg hle] at h2
        injection h2 with h3
        cases h3
        refine ⟨e :: pre, suf, by simp [hl], by simp [hr], ?_, hsuf⟩
        intro q hq
        rcases List.mem_cons.mp hq with rfl | hq
        · exact Nat.lt_of_not_le hle
        · exact hpre q hq

/-- Claim C6, corrected: each single pop from the candidate-path heap
removes an earliest-inserted candidate of minimal hop count among the
candidates currently in the heap — but the list `findKPaths` returns is
not sorted in non-decreasing hop count: the seed path precedes the pops
regardless of its length, and since the heap is refilled between pops, no
cross-pop ordering follows from per-pop minimality. -/
theorem popMinPath_order (l : List PathCand) (p : PathCand)
    (rest : List PathCand) (h : popMinPath l = some (p, rest)) :
    (∀ q ∈ rest, p.dist ≤ q.dist) ∧
    ∃ pre suf, l = pre ++ p :: suf ∧ rest = pre ++ suf ∧
      ∀ q ∈ pre, p.dist < q.dist := by
  obtain ⟨pre, suf, hl, hr, hpre, hsuf⟩ := popMinPath_spec l p rest h
  refine ⟨?_, pre, suf, hl, hr, hpre⟩
  intro q hq
  rw [hr] at hq
  rcases List.mem_append.mp hq with hq | hq
  · exact le_of_lt (hpre q hq)
  · exact hsuf q hq

/-- Claim C6, witness: popping the concrete heap `[wCand1(3), wCand2(2)]`
returns the minimal candidate `wCand2`, whose hop count is at most that of
the remaining `wCand1`. -/
theorem popMinPath_order_witness : wCand2.dist ≤ wCand1.dist :=
  (popMinPath_order [wCand1, wCand2] wCand2 [wCand1] (by decide)).1
    wCand1 (by decide)

set_option maxRecDepth 100000 in
set_option maxHeartbeats 2000000 in
/-- Claim C6, counterexample: a full `findKPaths` run (seed of 3 edges to
target 4 through fabricated nodes, graph `g6` offering a 2-edge
alternative) returns paths of lengths `[4, 3]` — not in non-decreasing
order of hop count. -/
theorem findKPaths_unsorted_cex :
    (findKPaths 30 ⟨g6, [], [], none⟩ ⟨[], [], noFeeLimit, none, false⟩
        0 4 1000 [q1, q2, q3] 2).map (fun ps => ps.map List.length) =
      .ok [4, 3] ∧
    ¬ (4 : Nat) ≤ 3 :=
  ⟨by decide, by decide⟩

/-- Helper for C8: `stitchFold` preserves the hop-limit bound on the
candidate heap — a stitched candidate is pushed only after the
`len(stitched) > HopLimit` guard rejects oversize ones. -/
theorem stitchFold_bound (i : Nat) :
    ∀ (js : List (Nat × List ChannelEdgePolicy))
      (st : List (List ChannelEdgePolicy) × List PathCand),
      (∀ c ∈ st.2, c.hops.length ≤ HopLimit) →
      ∀ c ∈ (stitchFold i js st).2, c.hops.length ≤ HopLimit
  | [], _, hst, c, hc => hst c hc
  | (j, segKPath) :: rest, (segPaths, cand), hst, c, hc => by
    simp only [stitchFold] at hc
    by_cases h1 : i ≠ 0 ∧ j = 0
    · rw [if_pos h1] at hc
      exact stitchFold_bound i rest _ hst c hc
    · rw [if_neg h1] at hc
      by_cases h2 : (stitchPath
          (if i = 0 ∧ j = 0 then segPaths.set 0 segKPath else segPaths)
          i segKPath).length > HopLimit
      · rw [if_pos h2] at hc
        exact stitchFold_bound i rest
          ((if i = 0 ∧ j = 0 then segPaths.set 0 segKPath else segPaths),
            cand) hst c hc
      · rw [if_neg h2] at hc
        refine stitchFold_bound i rest _ ?_ c hc
        intro c' hc'
        rcases List.mem_append.mp hc' with hm | hm
        · exact hst c' hm
        · rcases List.mem_singleton.mp hm with rfl
          exact Nat.le_of_not_lt h2

/-- Helper for C8: the diversification loop `candLoop` preserves the
hop-limit bound on the candidate heap. -/
theorem candLoop_bound (fuel : Nat) (gr : Graph) (bw : List (Nat × Nat))
    (origin : Vertex) (feeLimit amt : Nat) (numPaths : Nat)
    (ignored : List edgeLocator) (spf : Nat) (infos : List SegInfo) :
    ∀ (is : List Nat)
      (st : List (List ChannelEdgePolicy) × List PathCand)
      (stOut : List (List ChannelEdgePolicy) × List PathCand),
      (∀ c ∈ st.2, c.hops.length ≤ HopLimit) →
      candLoop fuel gr bw origin feeLimit amt numPaths ignored spf infos
        is st = .ok stOut →
      ∀ c ∈ stOut.2, c.hops.length ≤ HopLimit
  | [], st, stOut, hst, hok, c, hc => by
    simp only [candLoop] at hok
    cases Except.ok.inj hok
    exact hst c hc
  | i :: rest, (segPaths, cand), stOut, hst, hok, c, hc => by
    simp only [candLoop] at hok
    split at hok
    · exact candLoop_bound fuel gr bw origin feeLimit amt numPaths ignored
        spf infos rest _ stOut hst hok c hc
    · split at hok
      · exact Except.noConfusion hok
      · exact candLoop_bound fuel gr bw origin feeLimit amt numPaths ignored
          spf infos rest _ stOut
          (fun c' hc' => stitchFold_bound i _ _ hst c' hc') hok c hc

/-- Helper for C8: every path `selectLoop` pops comes from the candidate
heap, so a heap-wide hop bound carries over to the selection. -/
theorem selectLoop_bound :
    ∀ (k : Nat) (cand : List PathCand),
      (∀ c ∈ cand, c.hops.length ≤ HopLimit) →
      ∀ p ∈ selectLoop k cand, p.length ≤ HopLimit
  | 0, _, _, p, hp => by simp [selectLoop] at hp
  | k + 1, cand, h, p, hp => by
    simp only [selectLoop] at hp
    split at hp
    · simp at hp
    · rename_i best rest hpop
      obtain ⟨pre, suf, hl, hr, _, _⟩ := popMinPath_spec cand best rest hpop
      rcases List.mem_cons.mp hp with rfl | hp'
      · apply h best
        rw [hl]
        exact List.mem_append_right _ (List.mem_cons_self _ _)
      · refine selectLoop_bound k rest ?_ p hp'
        intro c hc
        apply h c
        rw [hl]
        rw [hr] at hc
        rcases List.mem_append.mp hc with h1 | h1
        · exact List.mem_append_left _ h1
        · exact List.mem_append_right _ (List.mem_cons_of_mem _ h1)

/-- Claim C8, confirmed: in `findPaths`, every end-to-end candidate built
by replacing a segment with an alternative is pushed to the candidate
heap only if its total length is at most `HopLimit` (20), so every path a
successful `findPaths` call returns has at most 20 edges. -/
theorem findPaths_hopLimit (fuel : Nat) (gr : Graph)
    (bandwidthHints : List (Nat × Nat)) (sourceV targetV : Vertex)
    (amt feeLimit : Nat) (numPaths : Nat) (additionalPegs : List HopPeg)
    (paths : List (List ChannelEdgePolicy))
    (hok : findPaths fuel gr bandwidthHints sourceV targetV amt feeLimit
      numPaths additionalPegs = .ok paths) :
    ∀ p ∈ paths, p.length ≤ HopLimit := by
  simp only [findPaths] at hok
  split at hok
  · exact Except.noConfusion hok
  · split at hok
    · cases Except.ok.inj hok
      intro p hp
      simp at hp
    · split at hok
      · exact Except.noConfusion hok
      · split at hok
        · exact Except.noConfusion hok
        · split at hok
          · exact Except.noConfusion hok
          · rename_i spl candF hcand
            cases Except.ok.inj hok
            intro p hp
            exact selectLoop_bound numPaths candF
              (candLoop_bound fuel gr bandwidthHints sourceV feeLimit amt
                numPaths _ _ _ _ _ (spl, candF) (by simp) hcand) p hp

set_option maxRecDepth 100000 in
set_option maxHeartbeats 2000000 in
/-- Witness for C8: a concrete successful `findPaths` run on `g8` whose
single returned path has two edges, within the hop limit. -/
theorem findPaths_hopLimit_witness :
    findPaths 30 g8 [] 0 4 1000 noFeeLimit 1 [] = .ok [[zeroPolicy, pST]] ∧
    ∀ p ∈ ([[zeroPolicy, pST]] : List (List ChannelEdgePolicy)),
      p.length ≤ HopLimit :=
  ⟨by decide, findPaths_hopLimit 30 g8 [] 0 4 1000 noFeeLimit 1
    [] [[zeroPolicy, pST]] (by decide)⟩

end Pathfind
